import Mathlib

/-!
Verification of the Ralph agent-loop drivers (ralph.sh and ralph.ps1).

The two scripts run the same retry/backoff/completion loop around an
external agent invocation.  We embed the loop body as a step function on a
state (iteration counter, consecutive-error counter), parameterised by the
two output classifiers (transient-error check and completion check), and
embed the concrete classifiers of each script: ralph.sh matches its
patterns case-sensitively with grep, ralph.ps1 matches them
case-insensitively with the PowerShell -match operator.
-/

namespace Ralph

/-- Decides whether list `n` is an initial segment of list `h`
(the matching primitive underlying a substring check). -/
def startsWithL : List Char → List Char → Bool
  | [], _ => true
  | _ :: _, [] => false
  | a :: n, b :: h => a == b && startsWithL n h

/-- Decides whether list `n` occurs contiguously anywhere inside list `h`:
the semantics of an (anchor-free, metacharacter-free) grep / regex match. -/
def occursIn (n : List Char) : List Char → Bool
  | [] => startsWithL n []
  | b :: h => startsWithL n (b :: h) || occursIn n h

/-- Case-sensitive substring test on strings: `grep -q pat` on the captured
output text (the patterns used by ralph.sh contain no newline and no regex
metacharacter, so line-wise grep agrees with whole-text substring search). -/
def containsStr (hay pat : String) : Bool :=
  occursIn pat.data hay.data

/-- ASCII lower-casing of a character list, modelling the case folding the
PowerShell -match operator applies (all patterns involved are ASCII). -/
def lowerL (l : List Char) : List Char :=
  l.map Char.toLower

/-- Case-insensitive substring test on strings: the PowerShell `-match`
operator, which is case-insensitive by default, on metacharacter-free
patterns. -/
def containsCI (hay pat : String) : Bool :=
  occursIn (lowerL pat.data) (lowerL hay.data)

/-- ralph.sh line 311: the connection-error check
`grep -qE "ConnectError|ETIMEDOUT|ECONNRESET|ENOTFOUND|connection refused|Connection refused"`. -/
def shErr (out : String) : Bool :=
  containsStr out "ConnectError" ||
  containsStr out "ETIMEDOUT" ||
  containsStr out "ECONNRESET" ||
  containsStr out "ENOTFOUND" ||
  containsStr out "connection refused" ||
  containsStr out "Connection refused"

/-- ralph.sh line 335: the completion check `grep -q "<promise>COMPLETE</promise>"`. -/
def shDone (out : String) : Bool :=
  containsStr out "<promise>COMPLETE</promise>"

/-- ralph.ps1 line 276: `$Output -match "ConnectError|ETIMEDOUT|ECONNRESET|ENOTFOUND|connection refused|Connection refused"`
(PowerShell -match is case-insensitive). -/
def psErr (out : String) : Bool :=
  containsCI out "ConnectError" ||
  containsCI out "ETIMEDOUT" ||
  containsCI out "ECONNRESET" ||
  containsCI out "ENOTFOUND" ||
  containsCI out "connection refused" ||
  containsCI out "Connection refused"

/-- ralph.ps1 line 297: `$Output -match "<promise>COMPLETE</promise>"`
(case-insensitive). -/
def psDone (out : String) : Bool :=
  containsCI out "<promise>COMPLETE</promise>"

/-- ralph.sh line 297 / ralph.ps1 line 262: `MAX_RETRIES=3`. -/
def MAX_RETRIES : Nat := 3

/-- ralph.sh line 298 / ralph.ps1 line 263: `RETRY_DELAY=10` (seconds). -/
def RETRY_DELAY : Nat := 10

/-- The mutable loop state: `ITERATION` and `CONSECUTIVE_ERRORS` in
ralph.sh, `$Iteration` and `$ConsecutiveErrors` in ralph.ps1. -/
structure LoopState where
  iteration : Nat
  consecutiveErrors : Nat
deriving DecidableEq, Repr

/-- Initial loop state: `ITERATION=1`, `CONSECUTIVE_ERRORS=0`. -/
def initState : LoopState := ⟨1, 0⟩

/-- Outcome of processing one agent invocation's output:
either the process exits with a code, or the loop continues in a new state
after sleeping `wait` seconds. -/
inductive StepResult where
  | halt (code : Nat)
  | next (s : LoopState) (wait : Nat)
deriving DecidableEq, Repr

/-- One pass of the loop body after the agent invocation returned `out`
(ralph.sh lines 311-344, ralph.ps1 lines 276-306), parameterised by the
script's two classifiers:
  * if the connection-error check fires, increment the error counter;
    abort with exit code 1 once it reaches `MAX_RETRIES`, otherwise sleep
    `RETRY_DELAY * counter` seconds and retry the same iteration;
  * otherwise reset the error counter; if the completion check fires, exit 0;
  * otherwise advance the iteration counter and sleep 2 seconds. -/
def stepLoop (isErr isDone : String → Bool) (s : LoopState) (out : String) : StepResult :=
  if isErr out then
    if MAX_RETRIES ≤ s.consecutiveErrors + 1 then
      StepResult.halt 1
    else
      StepResult.next ⟨s.iteration, s.consecutiveErrors + 1⟩
        (RETRY_DELAY * (s.consecutiveErrors + 1))
  else if isDone out then
    StepResult.halt 0
  else
    StepResult.next ⟨s.iteration + 1, 0⟩ 2

/-- The classification the loop body assigns to one output:
transient error, completion, or continue (checked in that order). -/
inductive Verdict where
  | transient
  | complete
  | proceed
deriving DecidableEq, Repr

/-- Classification of a single output, read off the branch structure of the
loop body (error check first, then completion check, else continue). -/
def classify (isErr isDone : String → Bool) (out : String) : Verdict :=
  if isErr out then Verdict.transient
  else if isDone out then Verdict.complete
  else Verdict.proceed

/-- The whole driver loop (`while [ $ITERATION -le $MAX_ITERATIONS ]` of
ralph.sh lines 301-350, ralph.ps1 lines 266-312), run against a finite
prefix `outs` of the stream of agent outputs.  Returns
`some (exitCode, invocationsPerformed)` when the driver terminates within
that prefix, `none` when the prefix is exhausted before termination. -/
def ralphRun (isErr isDone : String → Bool) (maxIter : Nat) :
    LoopState → List String → Option (Nat × Nat)
  | s, outs =>
    if s.iteration ≤ maxIter then
      match outs with
      | [] => none
      | out :: rest =>
        match stepLoop isErr isDone s out with
        | StepResult.halt c => some (c, 1)
        | StepResult.next s₂ _ =>
          (ralphRun isErr isDone maxIter s₂ rest).map (fun p => (p.1, p.2 + 1))
    else
      some (1, 0)

/-- The ralph.sh driver. -/
def ralphRunSh (maxIter : Nat) (s : LoopState) (outs : List String) : Option (Nat × Nat) :=
  ralphRun shErr shDone maxIter s outs

/-- The ralph.ps1 driver. -/
def ralphRunPs (maxIter : Nat) (s : LoopState) (outs : List String) : Option (Nat × Nat) :=
  ralphRun psErr psDone maxIter s outs

/-- Spec-side description of the transient-error signature, written from
the spec's words: a case-sensitive occurrence of one of the patterns
`ConnectError`, `ETIMEDOUT`, `ECONNRESET`, `ENOTFOUND`, or of
`connection refused` in either capitalisation, anywhere in the output. -/
def SpecTransientSig (out : String) : Prop :=
  (∃ p t, out.data = p ++ "ConnectError".data ++ t) ∨
  (∃ p t, out.data = p ++ "ETIMEDOUT".data ++ t) ∨
  (∃ p t, out.data = p ++ "ECONNRESET".data ++ t) ∨
  (∃ p t, out.data = p ++ "ENOTFOUND".data ++ t) ∨
  (∃ p t, out.data = p ++ "connection refused".data ++ t) ∨
  (∃ p t, out.data = p ++ "Connection refused".data ++ t)

/-- Spec-side description of what the case-insensitive PowerShell matcher
accepts: the same alternation, matched on the lower-cased text. -/
def SpecTransientSigCI (out : String) : Prop :=
  (∃ p t, lowerL out.data = p ++ lowerL "ConnectError".data ++ t) ∨
  (∃ p t, lowerL out.data = p ++ lowerL "ETIMEDOUT".data ++ t) ∨
  (∃ p t, lowerL out.data = p ++ lowerL "ECONNRESET".data ++ t) ∨
  (∃ p t, lowerL out.data = p ++ lowerL "ENOTFOUND".data ++ t) ∨
  (∃ p t, lowerL out.data = p ++ lowerL "connection refused".data ++ t) ∨
  (∃ p t, lowerL out.data = p ++ lowerL "Connection refused".data ++ t)

/-- Spec-side description of the completion marker check: a case-sensitive
occurrence of the literal token anywhere in the output. -/
def SpecCompleteSig (out : String) : Prop :=
  ∃ p t, out.data = p ++ "<promise>COMPLETE</promise>".data ++ t

end Ralph

namespace Ralph

lemma startsWithL_iff (n : List Char) : ∀ h, startsWithL n h = true ↔ ∃ t, h = n ++ t := by
  induction n with
  | nil =>
    intro h
    simp [startsWithL]
  | cons a n ih =>
    intro h
    cases h with
    | nil =>
      simp [startsWithL]
    | cons b h =>
      simp only [startsWithL, Bool.and_eq_true, beq_iff_eq, ih, List.cons_append,
        List.cons.injEq]
      constructor
      · rintro ⟨rfl, t, rfl⟩
        exact ⟨t, rfl, rfl⟩
      · rintro ⟨t, rfl, rfl⟩
        exact ⟨rfl, t, rfl⟩

lemma occursIn_iff (n : List Char) : ∀ h, occursIn n h = true ↔ ∃ p t, h = p ++ n ++ t := by
  intro h
  induction h with
  | nil =>
    simp only [occursIn, startsWithL_iff]
    constructor
    · rintro ⟨t, ht⟩
      exact ⟨[], t, by simpa using ht⟩
    · rintro ⟨p, t, ht⟩
      have h1 := List.append_eq_nil.mp ht.symm
      rcases List.append_eq_nil.mp h1.1 with ⟨hp, hn⟩
      exact ⟨t, by simp [hn, h1.2]⟩
  | cons b h ih =>
    simp only [occursIn, Bool.or_eq_true, startsWithL_iff, ih]
    constructor
    · rintro (⟨t, ht⟩ | ⟨p, t, ht⟩)
      · exact ⟨[], t, by simpa using ht⟩
      · exact ⟨b :: p, t, by simp [ht]⟩
    · rintro ⟨p, t, ht⟩
      cases p with
      | nil =>
        exact Or.inl ⟨t, by simpa using ht⟩
      | cons c p =>
        rcases List.cons.injEq .. ▸ ht with ⟨rfl, hrest⟩
        exact Or.inr ⟨p, t, by simpa using hrest⟩

lemma containsStr_iff (hay pat : String) :
    containsStr hay pat = true ↔ ∃ p t, hay.data = p ++ pat.data ++ t := by
  simpa [containsStr] using occursIn_iff pat.data hay.data

lemma containsCI_iff (hay pat : String) :
    containsCI hay pat = true ↔ ∃ p t, lowerL hay.data = p ++ lowerL pat.data ++ t := by
  simpa [containsCI] using occursIn_iff (lowerL pat.data) (lowerL hay.data)

lemma containsStr_mono_CI (hay pat : String) (h : containsStr hay pat = true) :
    containsCI hay pat = true := by
  rcases (containsStr_iff hay pat).mp h with ⟨p, t, ht⟩
  exact (containsCI_iff hay pat).mpr ⟨lowerL p, lowerL t, by simp [ht, lowerL]⟩

lemma stepLoop_err_retry (isErr isDone : String → Bool) (s : LoopState) (out : String)
    (hE : isErr out = true) (hce : s.consecutiveErrors + 1 < 3) :
    stepLoop isErr isDone s out =
      StepResult.next ⟨s.iteration, s.consecutiveErrors + 1⟩
        (RETRY_DELAY * (s.consecutiveErrors + 1)) := by
  simp [stepLoop, hE, MAX_RETRIES, Nat.not_le.mpr hce]

lemma stepLoop_err_abort (isErr isDone : String → Bool) (s : LoopState) (out : String)
    (hE : isErr out = true) (hce : 3 ≤ s.consecutiveErrors + 1) :
    stepLoop isErr isDone s out = StepResult.halt 1 := by
  simp [stepLoop, hE, MAX_RETRIES, hce]

lemma stepLoop_done (isErr isDone : String → Bool) (s : LoopState) (out : String)
    (hE : isErr out = false) (hD : isDone out = true) :
    stepLoop isErr isDone s out = StepResult.halt 0 := by
  simp [stepLoop, hE, hD]

lemma stepLoop_cont (isErr isDone : String → Bool) (s : LoopState) (out : String)
    (hE : isErr out = false) (hD : isDone out = false) :
    stepLoop isErr isDone s out = StepResult.next ⟨s.iteration + 1, 0⟩ 2 := by
  simp [stepLoop, hE, hD]

lemma ralphRun_stop (isErr isDone : String → Bool) (M : Nat) (s : LoopState)
    (outs : List String) (h : ¬ s.iteration ≤ M) :
    ralphRun isErr isDone M s outs = some (1, 0) := by
  rw [ralphRun.eq_def]
  simp [h]

lemma ralphRun_nil (isErr isDone : String → Bool) (M : Nat) (s : LoopState)
    (h : s.iteration ≤ M) :
    ralphRun isErr isDone M s [] = none := by
  rw [ralphRun.eq_def]
  simp [h]

lemma ralphRun_halt (isErr isDone : String → Bool) (M : Nat) (s : LoopState)
    (out : String) (rest : List String) (c : Nat) (h : s.iteration ≤ M)
    (hs : stepLoop isErr isDone s out = StepResult.halt c) :
    ralphRun isErr isDone M s (out :: rest) = some (c, 1) := by
  rw [ralphRun.eq_def]
  simp [h, hs]

lemma ralphRun_next (isErr isDone : String → Bool) (M : Nat) (s s₂ : LoopState)
    (out : String) (rest : List String) (w : Nat) (h : s.iteration ≤ M)
    (hs : stepLoop isErr isDone s out = StepResult.next s₂ w) :
    ralphRun isErr isDone M s (out :: rest) =
      (ralphRun isErr isDone M s₂ rest).map (fun p => (p.1, p.2 + 1)) := by
  rw [ralphRun.eq_def]
  simp [h, hs]

lemma run_three_errors (isErr isDone : String → Bool) (M : Nat) (s : LoopState)
    (e₁ e₂ e₃ : String) (rest : List String)
    (hIt : s.iteration ≤ M) (hce : s.consecutiveErrors = 0)
    (h₁ : isErr e₁ = true) (h₂ : isErr e₂ = true) (h₃ : isErr e₃ = true) :
    ralphRun isErr isDone M s (e₁ :: e₂ :: e₃ :: rest) = some (1, 3) := by
  obtain ⟨i, ce⟩ := s
  have hce0 : ce = 0 := hce
  subst hce0
  have hi : i ≤ M := hIt
  have hs₁ : stepLoop isErr isDone ⟨i, 0⟩ e₁ = StepResult.next ⟨i, 1⟩ 10 :=
    stepLoop_err_retry isErr isDone ⟨i, 0⟩ e₁ h₁ (show 0 + 1 < 3 by omega)
  have hs₂ : stepLoop isErr isDone ⟨i, 1⟩ e₂ = StepResult.next ⟨i, 2⟩ 20 :=
    stepLoop_err_retry isErr isDone ⟨i, 1⟩ e₂ h₂ (show 1 + 1 < 3 by omega)
  have hs₃ : stepLoop isErr isDone ⟨i, 2⟩ e₃ = StepResult.halt 1 :=
    stepLoop_err_abort isErr isDone ⟨i, 2⟩ e₃ h₃ (show 3 ≤ 2 + 1 by omega)
  rw [ralphRun_next _ _ _ _ _ _ _ _ hi hs₁, ralphRun_next _ _ _ _ _ _ _ _ hi hs₂,
    ralphRun_halt _ _ _ _ _ _ _ hi hs₃]
  rfl

lemma run_all_continue (isErr isDone : String → Bool) (M : Nat) :
    ∀ (outs : List String) (i ce : Nat),
      (∀ o ∈ outs, isErr o = false ∧ isDone o = false) →
      M + 1 - i ≤ outs.length →
      ralphRun isErr isDone M ⟨i, ce⟩ outs = some (1, M + 1 - i) := by
  intro outs
  induction outs with
  | nil =>
    intro i ce _ hlen
    simp only [List.length_nil] at hlen
    have hgt : ¬ (i ≤ M) := by omega
    rw [ralphRun_stop _ _ _ _ _ hgt]
    have hz : M + 1 - i = 0 := by omega
    rw [hz]
  | cons a tl ih =>
    intro i ce hAll hlen
    simp only [List.length_cons] at hlen
    by_cases hi : i ≤ M
    · have ha := hAll a (List.mem_cons_self a tl)
      have hs : stepLoop isErr isDone ⟨i, ce⟩ a = StepResult.next ⟨i + 1, 0⟩ 2 :=
        stepLoop_cont isErr isDone ⟨i, ce⟩ a ha.1 ha.2
      rw [ralphRun_next _ _ _ _ _ _ _ _ hi hs]
      have htl : ∀ o ∈ tl, isErr o = false ∧ isDone o = false :=
        fun o ho => hAll o (List.mem_cons_of_mem _ ho)
      rw [ih (i + 1) 0 htl (by omega)]
      have hmap : (some ((1 : Nat), M + 1 - (i + 1))).map
          (fun p => (p.1, p.2 + 1)) = some (1, M + 1 - (i + 1) + 1) := rfl
      have hstep : M + 1 - (i + 1) + 1 = M + 1 - i := by omega
      rw [hmap, hstep]
    · rw [ralphRun_stop _ _ _ _ _ hi]
      have hz : M + 1 - i = 0 := by omega
      rw [hz]

lemma run_bounded (isErr isDone : String → Bool) (M : Nat) :
    ∀ (outs : List String) (s : LoopState),
      s.consecutiveErrors ≤ 2 →
      3 * (M + 1 - s.iteration) - s.consecutiveErrors ≤ outs.length →
      ∃ c n, ralphRun isErr isDone M s outs = some (c, n) ∧
        n ≤ 3 * (M + 1 - s.iteration) - s.consecutiveErrors := by
  intro outs
  induction outs with
  | nil =>
    intro s hce hlen
    simp only [List.length_nil] at hlen
    have hgt : ¬ (s.iteration ≤ M) := by omega
    exact ⟨1, 0, ralphRun_stop _ _ _ _ _ hgt, Nat.zero_le _⟩
  | cons a tl ih =>
    intro s hce hlen
    simp only [List.length_cons] at hlen
    by_cases hi : s.iteration ≤ M
    · by_cases hE : isErr a = true
      · by_cases habort : 3 ≤ s.consecutiveErrors + 1
        · exact ⟨1, 1,
            ralphRun_halt _ _ _ _ _ _ _ hi (stepLoop_err_abort _ _ _ _ hE habort),
            by omega⟩
        · have hs : stepLoop isErr isDone s a =
              StepResult.next ⟨s.iteration, s.consecutiveErrors + 1⟩
                (RETRY_DELAY * (s.consecutiveErrors + 1)) :=
            stepLoop_err_retry _ _ _ _ hE (by omega)
          obtain ⟨c, n, hrun, hn⟩ :=
            ih ⟨s.iteration, s.consecutiveErrors + 1⟩
              (show s.consecutiveErrors + 1 ≤ 2 by omega)
              (show 3 * (M + 1 - s.iteration) - (s.consecutiveErrors + 1) ≤ tl.length
                by omega)
          have hn₂ : n ≤ 3 * (M + 1 - s.iteration) - (s.consecutiveErrors + 1) := hn
          refine ⟨c, n + 1, ?_, by omega⟩
          rw [ralphRun_next _ _ _ _ _ _ _ _ hi hs, hrun]
          rfl
      · have hE₂ : isErr a = false := by
          cases h : isErr a
          · rfl
          · exact absurd h hE
        by_cases hD : isDone a = true
        · exact ⟨0, 1,
            ralphRun_halt _ _ _ _ _ _ _ hi (stepLoop_done _ _ _ _ hE₂ hD),
            by omega⟩
        · have hD₂ : isDone a = false := by
            cases h : isDone a
            · rfl
            · exact absurd h hD
          have hs : stepLoop isErr isDone s a = StepResult.next ⟨s.iteration + 1, 0⟩ 2 :=
            stepLoop_cont _ _ _ _ hE₂ hD₂
          obtain ⟨c, n, hrun, hn⟩ :=
            ih ⟨s.iteration + 1, 0⟩ (Nat.zero_le _)
              (show 3 * (M + 1 - (s.iteration + 1)) - 0 ≤ tl.length by omega)
          have hn₂ : n ≤ 3 * (M + 1 - (s.iteration + 1)) - 0 := hn
          refine ⟨c, n + 1, ?_, by omega⟩
          rw [ralphRun_next _ _ _ _ _ _ _ _ hi hs, hrun]
          rfl
    · exact ⟨1, 0, ralphRun_stop _ _ _ _ _ hi, Nat.zero_le _⟩

lemma stepLoop_classify_congr (f₁ g₁ f₂ g₂ : String → Bool) (s : LoopState)
    (out : String) (h : classify f₁ g₁ out = classify f₂ g₂ out) :
    stepLoop f₁ g₁ s out = stepLoop f₂ g₂ s out := by
  cases hf₁ : f₁ out <;> cases hf₂ : f₂ out <;>
    cases hg₁ : g₁ out <;> cases hg₂ : g₂ out <;>
      simp_all [classify, stepLoop]

lemma ralphRun_classify_congr (f₁ g₁ f₂ g₂ : String → Bool) (M : Nat) :
    ∀ (outs : List String) (s : LoopState),
      (∀ o ∈ outs, classify f₁ g₁ o = classify f₂ g₂ o) →
      ralphRun f₁ g₁ M s outs = ralphRun f₂ g₂ M s outs := by
  intro outs
  induction outs with
  | nil =>
    intro s _
    by_cases h : s.iteration ≤ M
    · rw [ralphRun_nil _ _ _ _ h, ralphRun_nil _ _ _ _ h]
    · rw [ralphRun_stop _ _ _ _ _ h, ralphRun_stop _ _ _ _ _ h]
  | cons a tl ih =>
    intro s hAll
    have ha := hAll a (List.mem_cons_self a tl)
    by_cases h : s.iteration ≤ M
    · have hstep : stepLoop f₁ g₁ s a = stepLoop f₂ g₂ s a :=
        stepLoop_classify_congr f₁ g₁ f₂ g₂ s a ha
      cases hs : stepLoop f₂ g₂ s a with
      | halt c =>
        rw [ralphRun_halt _ _ _ _ _ _ _ h (hstep.trans hs),
          ralphRun_halt _ _ _ _ _ _ _ h hs]
      | next s₂ w =>
        rw [ralphRun_next _ _ _ _ _ _ _ _ h (hstep.trans hs),
          ralphRun_next _ _ _ _ _ _ _ _ h hs,
          ih s₂ (fun o ho => hAll o (List.mem_cons_of_mem _ ho))]
    · rw [ralphRun_stop _ _ _ _ _ h, ralphRun_stop _ _ _ _ _ h]

lemma shErr_iff (out : String) : shErr out = true ↔ SpecTransientSig out := by
  simp only [shErr, SpecTransientSig, Bool.or_eq_true, containsStr_iff, or_assoc]

lemma psErr_iff (out : String) : psErr out = true ↔ SpecTransientSigCI out := by
  simp only [psErr, SpecTransientSigCI, Bool.or_eq_true, containsCI_iff, or_assoc]

lemma shDone_iff (out : String) : shDone out = true ↔ SpecCompleteSig out := by
  simp only [shDone, SpecCompleteSig, containsStr_iff]

lemma shErr_mono (out : String) (h : shErr out = true) : psErr out = true := by
  simp only [shErr, Bool.or_eq_true, or_assoc] at h
  simp only [psErr, Bool.or_eq_true, or_assoc]
  rcases h with h | h | h | h | h | h
  · exact Or.inl (containsStr_mono_CI _ _ h)
  · exact Or.inr (Or.inl (containsStr_mono_CI _ _ h))
  · exact Or.inr (Or.inr (Or.inl (containsStr_mono_CI _ _ h)))
  · exact Or.inr (Or.inr (Or.inr (Or.inl (containsStr_mono_CI _ _ h))))
  · exact Or.inr (Or.inr (Or.inr (Or.inr (Or.inl (containsStr_mono_CI _ _ h)))))
  · exact Or.inr (Or.inr (Or.inr (Or.inr (Or.inr (containsStr_mono_CI _ _ h)))))

lemma shDone_mono (out : String) (h : shDone out = true) : psDone out = true :=
  containsStr_mono_CI _ _ h

/-- C1: if the invocation at an iteration within budget (iteration ≤ maxIterations)
returns output that does not match the transient-error signature and does contain
the completion marker, the driver performs no further invocation (it performs
exactly this one) and terminates with exit code 0, regardless of how much
iteration budget remains. -/
theorem completion_short_circuits (isErr isDone : String → Bool) (M : Nat)
    (s : LoopState) (out : String) (rest : List String)
    (hIt : s.iteration ≤ M) (hE : isErr out = false) (hD : isDone out = true) :
    ralphRun isErr isDone M s (out :: rest) = some (0, 1) :=
  ralphRun_halt _ _ _ _ _ _ _ hIt (stepLoop_done _ _ _ _ hE hD)

/-- Witness for C1: at iteration 2 of 5, a completing output ends the run at once. -/
theorem completion_short_circuits_witness :
    shErr "ok <promise>COMPLETE</promise>" = false ∧
    shDone "ok <promise>COMPLETE</promise>" = true ∧
    ralphRun shErr shDone 5 ⟨2, 0⟩ ["ok <promise>COMPLETE</promise>", "later"] = some (0, 1) :=
  ⟨by decide, by decide,
    completion_short_circuits shErr shDone 5 ⟨2, 0⟩ _ _ (by decide) (by decide) (by decide)⟩

/-- C2: from any in-budget state with the consecutive-error counter at 0, three
consecutive invocations whose outputs all match the transient-error signature
terminate the run with exit code 1 after exactly those 3 invocations — a fourth
invocation never happens. -/
theorem error_budget_enforced (isErr isDone : String → Bool) (M : Nat) (s : LoopState)
    (e₁ e₂ e₃ : String) (rest : List String)
    (hIt : s.iteration ≤ M) (hce : s.consecutiveErrors = 0)
    (h₁ : isErr e₁ = true) (h₂ : isErr e₂ = true) (h₃ : isErr e₃ = true) :
    ralphRun isErr isDone M s (e₁ :: e₂ :: e₃ :: rest) = some (1, 3) :=
  run_three_errors isErr isDone M s e₁ e₂ e₃ rest hIt hce h₁ h₂ h₃

/-- Witness for C2: three timeouts in a row abort a 10-iteration run after
exactly 3 invocations with exit code 1. -/
theorem error_budget_enforced_witness :
    shErr "ETIMEDOUT" = true ∧ shErr "ECONNRESET" = true ∧ shErr "ENOTFOUND" = true ∧
    ralphRun shErr shDone 10 initState ["ETIMEDOUT", "ECONNRESET", "ENOTFOUND", "x"] =
      some (1, 3) :=
  ⟨by decide, by decide, by decide,
    error_budget_enforced shErr shDone 10 initState _ _ _ _
      (by decide) (by decide) (by decide) (by decide) (by decide)⟩

/-- C3 counterexample: the output `"etimedout"` does not match the claimed
case-sensitive signature set, yet the ralph.ps1 driver classifies it as a
transient error (PowerShell -match is case-insensitive), so the claimed
iff fails for the PowerShell driver. -/
theorem transient_classification_counterexample :
    classify psErr psDone "etimedout" = Verdict.transient ∧
    ¬ SpecTransientSig "etimedout" := by
  constructor
  · decide
  · intro h
    exact absurd ((shErr_iff "etimedout").mpr h) (by decide)

/-- C3 amended: the ralph.sh driver classifies an output as a transient error
iff it matches the signature set case-sensitively; the ralph.ps1 driver
classifies it as a transient error iff the lower-cased output matches the
lower-cased signature set (case-insensitive match); and for either driver, an
output matching neither its error signature nor its completion marker is
classified as continue. -/
theorem transient_classification_amended (out : String) :
    (shErr out = true ↔ SpecTransientSig out) ∧
    (psErr out = true ↔ SpecTransientSigCI out) ∧
    (shErr out = false → shDone out = false →
      classify shErr shDone out = Verdict.proceed) ∧
    (psErr out = false → psDone out = false →
      classify psErr psDone out = Verdict.proceed) := by
  refine ⟨shErr_iff out, psErr_iff out, ?_, ?_⟩
  · intro h₁ h₂
    simp [classify, h₁, h₂]
  · intro h₁ h₂
    simp [classify, h₁, h₂]

/-- Witness for C3 amended, instantiated at the output `"ETIMEDOUT"`. -/
theorem transient_classification_amended_witness :
    (shErr "ETIMEDOUT" = true ↔ SpecTransientSig "ETIMEDOUT") ∧
    (psErr "ETIMEDOUT" = true ↔ SpecTransientSigCI "ETIMEDOUT") ∧
    (shErr "ETIMEDOUT" = false → shDone "ETIMEDOUT" = false →
      classify shErr shDone "ETIMEDOUT" = Verdict.proceed) ∧
    (psErr "ETIMEDOUT" = false → psDone "ETIMEDOUT" = false →
      classify psErr psDone "ETIMEDOUT" = Verdict.proceed) :=
  transient_classification_amended "ETIMEDOUT"

/-- C4: an output matching both the transient-error signature and the
completion marker is classified as a transient error, never as a completion:
the loop body either aborts with exit code 1 or retries with the error counter
incremented, and in particular never exits with code 0 on such an output. -/
theorem error_classification_precedes_completion (isErr isDone : String → Bool)
    (s : LoopState) (out : String) (hE : isErr out = true) (hD : isDone out = true) :
    classify isErr isDone out = Verdict.transient ∧
    stepLoop isErr isDone s out ≠ StepResult.halt 0 ∧
    (stepLoop isErr isDone s out = StepResult.halt 1 ∨
      stepLoop isErr isDone s out =
        StepResult.next ⟨s.iteration, s.consecutiveErrors + 1⟩
          (RETRY_DELAY * (s.consecutiveErrors + 1))) := by
  by_cases h₃ : 3 ≤ s.consecutiveErrors + 1
  · have hs := stepLoop_err_abort isErr isDone s out hE h₃
    exact ⟨by simp [classify, hE], by rw [hs]; simp, Or.inl hs⟩
  · have hs := stepLoop_err_retry isErr isDone s out hE (by omega)
    exact ⟨by simp [classify, hE], by rw [hs]; simp, Or.inr hs⟩

/-- Witness for C4: an output containing both `ETIMEDOUT` and the completion
marker is treated as a transient error and never as a success. -/
theorem error_classification_precedes_completion_witness :
    shErr "ETIMEDOUT <promise>COMPLETE</promise>" = true ∧
    shDone "ETIMEDOUT <promise>COMPLETE</promise>" = true ∧
    classify shErr shDone "ETIMEDOUT <promise>COMPLETE</promise>" = Verdict.transient ∧
    stepLoop shErr shDone ⟨2, 0⟩ "ETIMEDOUT <promise>COMPLETE</promise>" ≠
      StepResult.halt 0 := by
  have h := error_classification_precedes_completion shErr shDone ⟨2, 0⟩
    "ETIMEDOUT <promise>COMPLETE</promise>" (by decide) (by decide)
  exact ⟨by decide, by decide, h.1, h.2.1⟩

/-- C5: if the first n invocations of a run (1 ≤ n < 3) all match the
transient-error signature, the run continues from the state whose iteration
counter is still 1 and whose consecutive-error counter is n, having spent
n invocations — the iteration counter never advances on a retry. -/
theorem retries_preserve_iteration (isErr isDone : String → Bool) (M : Nat)
    (outs rest : List String)
    (hM : 1 ≤ M) (hlen : 1 ≤ outs.length) (hlt : outs.length < 3)
    (hAll : ∀ o ∈ outs, isErr o = true) :
    ralphRun isErr isDone M initState (outs ++ rest) =
      (ralphRun isErr isDone M ⟨1, outs.length⟩ rest).map
        (fun p => (p.1, p.2 + outs.length)) := by
  rcases outs with _ | ⟨a, _ | ⟨b, _ | ⟨c, tl⟩⟩⟩
  · simp only [List.length_nil] at hlen
    omega
  · have ha := hAll a (List.mem_cons_self a _)
    have hs : stepLoop isErr isDone ⟨1, 0⟩ a = StepResult.next ⟨1, 1⟩ 10 :=
      stepLoop_err_retry isErr isDone ⟨1, 0⟩ a ha (show 0 + 1 < 3 by omega)
    show ralphRun isErr isDone M ⟨1, 0⟩ (a :: rest) = _
    rw [ralphRun_next _ _ _ _ _ _ _ _ hM hs]
    rfl
  · have ha := hAll a (by simp)
    have hb := hAll b (by simp)
    have hs₁ : stepLoop isErr isDone ⟨1, 0⟩ a = StepResult.next ⟨1, 1⟩ 10 :=
      stepLoop_err_retry isErr isDone ⟨1, 0⟩ a ha (show 0 + 1 < 3 by omega)
    have hs₂ : stepLoop isErr isDone ⟨1, 1⟩ b = StepResult.next ⟨1, 2⟩ 20 :=
      stepLoop_err_retry isErr isDone ⟨1, 1⟩ b hb (show 1 + 1 < 3 by omega)
    show ralphRun isErr isDone M ⟨1, 0⟩ (a :: b :: rest) = _
    rw [ralphRun_next _ _ _ _ _ _ _ _ hM hs₁, ralphRun_next _ _ _ _ _ _ _ _ hM hs₂]
    show ((ralphRun isErr isDone M ⟨1, 2⟩ rest).map (fun p => (p.1, p.2 + 1))).map
        (fun p => (p.1, p.2 + 1)) =
      (ralphRun isErr isDone M ⟨1, 2⟩ rest).map (fun p => (p.1, p.2 + 2))
    cases hx : ralphRun isErr isDone M ⟨1, 2⟩ rest with
    | none => rfl
    | some p => rfl
  · simp only [List.length_cons] at hlt
    omega

/-- Witness for C5: two leading timeouts leave the run at iteration 1 with
two consecutive errors recorded. -/
theorem retries_preserve_iteration_witness :
    ralphRun shErr shDone 7 initState (["ETIMEDOUT", "ECONNRESET"] ++ ["ok"]) =
      (ralphRun shErr shDone 7 ⟨1, (["ETIMEDOUT", "ECONNRESET"] : List String).length⟩
          ["ok"]).map
        (fun p => (p.1, p.2 + (["ETIMEDOUT", "ECONNRESET"] : List String).length)) :=
  retries_preserve_iteration shErr shDone 7 ["ETIMEDOUT", "ECONNRESET"] ["ok"]
    (by decide) (by decide) (by decide) (by decide)

/-- C6: an invocation whose output does not match the transient-error
signature resets the consecutive-error counter to 0 (while advancing the
iteration counter), and from the reset state a later streak of transient
errors must again reach 3 consecutive occurrences before the driver aborts
with exit code 1. -/
theorem error_counter_resets (isErr isDone : String → Bool) (M : Nat) (s : LoopState)
    (out : String)
    (hce : s.consecutiveErrors = 1 ∨ s.consecutiveErrors = 2)
    (hE : isErr out = false) (hD : isDone out = false) :
    stepLoop isErr isDone s out = StepResult.next ⟨s.iteration + 1, 0⟩ 2 ∧
    ∀ e₁ e₂ e₃ rest, s.iteration + 1 ≤ M →
      isErr e₁ = true → isErr e₂ = true → isErr e₃ = true →
      ralphRun isErr isDone M ⟨s.iteration + 1, 0⟩ (e₁ :: e₂ :: e₃ :: rest) =
        some (1, 3) := by
  refine ⟨stepLoop_cont _ _ _ _ hE hD, ?_⟩
  intro e₁ e₂ e₃ rest hIt h₁ h₂ h₃
  exact run_three_errors isErr isDone M ⟨s.iteration + 1, 0⟩ e₁ e₂ e₃ rest hIt rfl h₁ h₂ h₃

/-- Witness for C6: after 2 consecutive errors a clean output resets the
counter, and a fresh streak still needs 3 errors to abort. -/
theorem error_counter_resets_witness :
    stepLoop shErr shDone ⟨4, 2⟩ "all good" = StepResult.next ⟨5, 0⟩ 2 ∧
    ralphRun shErr shDone 9 ⟨5, 0⟩ ["ETIMEDOUT", "ETIMEDOUT", "ETIMEDOUT"] =
      some (1, 3) := by
  have h := error_counter_resets shErr shDone 9 ⟨4, 2⟩ "all good"
    (Or.inr rfl) (by decide) (by decide)
  exact ⟨h.1, h.2 "ETIMEDOUT" "ETIMEDOUT" "ETIMEDOUT" []
    (by decide) (by decide) (by decide) (by decide)⟩

/-- C7: if no output in the stream matches the transient-error signature or
the completion marker, the driver performs exactly maxIterations invocations
(advancing the iteration counter each time) and then exits with code 1. -/
theorem max_iterations_exhaustion (isErr isDone : String → Bool) (M : Nat)
    (outs : List String) (hM : 1 ≤ M)
    (hAll : ∀ o ∈ outs, isErr o = false ∧ isDone o = false)
    (hlen : M ≤ outs.length) :
    ralphRun isErr isDone M initState outs = some (1, M) := by
  have h := run_all_continue isErr isDone M outs 1 0 hAll (by omega)
  have hM₂ : M + 1 - 1 = M := by omega
  rw [hM₂] at h
  exact h

/-- Witness for C7: with maxIterations = 2 and only neutral outputs, exactly
2 invocations happen and the run exits with code 1. -/
theorem max_iterations_exhaustion_witness :
    ralphRun shErr shDone 2 initState ["alpha", "beta", "gamma"] = some (1, 2) :=
  max_iterations_exhaustion shErr shDone 2 ["alpha", "beta", "gamma"]
    (by decide) (by decide) (by decide)

/-- C8: the backoff slept before retry attempt i (1-indexed within a streak
of consecutive transient errors, i ∈ {1, 2}) equals `RETRY_DELAY * i` = 10·i
seconds — linear, not exponential — and the same iteration is retried. -/
theorem linear_backoff (isErr isDone : String → Bool) (s : LoopState) (out : String)
    (i : Nat) (hi : i = 1 ∨ i = 2) (hce : s.consecutiveErrors + 1 = i)
    (hE : isErr out = true) :
    stepLoop isErr isDone s out = StepResult.next ⟨s.iteration, i⟩ (RETRY_DELAY * i) := by
  subst hce
  exact stepLoop_err_retry isErr isDone s out hE (by omega)

/-- Witness for C8: the second consecutive error waits 10 × 2 = 20 seconds. -/
theorem linear_backoff_witness :
    stepLoop shErr shDone ⟨3, 1⟩ "ECONNRESET" = StepResult.next ⟨3, 2⟩ (RETRY_DELAY * 2) :=
  linear_backoff shErr shDone ⟨3, 1⟩ "ECONNRESET" 2 (Or.inr rfl) rfl (by decide)

/-- C9 counterexample: on the output `"etimedout"` the two drivers classify
differently (ralph.sh: continue; ralph.ps1: transient error), and whole runs
diverge on the same output sequence. -/
theorem drivers_differ_counterexample :
    classify shErr shDone "etimedout" ≠ classify psErr psDone "etimedout" ∧
    ralphRunSh 1 initState ["etimedout"] ≠ ralphRunPs 1 initState ["etimedout"] :=
  ⟨by decide, by decide⟩

/-- C9 amended: the two drivers run the same loop state machine and differ
only in how they classify outputs (ralph.sh matches its patterns
case-sensitively, ralph.ps1 case-insensitively, so the classifications can
genuinely differ): on any output sequence whose every output the two drivers
classify identically (transient-error, completion, or continue), the drivers
traverse the same states and terminate with the same exit code and the same
invocation count. -/
theorem drivers_agree_amended (M : Nat) (s : LoopState) (outs : List String)
    (hAgree : ∀ o ∈ outs, classify shErr shDone o = classify psErr psDone o) :
    ralphRunSh M s outs = ralphRunPs M s outs :=
  ralphRun_classify_congr shErr shDone psErr psDone M outs s hAgree

/-- Witness for C9 amended: a sequence both drivers classify identically —
its first output even has disagreeing completion checks (`shDone` false,
`psDone` true) while both drivers classify it transient, so the hypothesis is
agreement of classifications, not of the underlying checks — yields identical
runs. -/
theorem drivers_agree_amended_witness :
    shDone "ETIMEDOUT <promise>complete</promise>" = false ∧
    psDone "ETIMEDOUT <promise>complete</promise>" = true ∧
    classify shErr shDone "ETIMEDOUT <promise>complete</promise>" =
      classify psErr psDone "ETIMEDOUT <promise>complete</promise>" ∧
    ralphRunSh 2 initState ["ETIMEDOUT <promise>complete</promise>", "ok", "ok"] =
      ralphRunPs 2 initState ["ETIMEDOUT <promise>complete</promise>", "ok", "ok"] :=
  ⟨by decide, by decide, by decide,
    drivers_agree_amended 2 initState
      ["ETIMEDOUT <promise>complete</promise>", "ok", "ok"] (by decide)⟩

/-- C10: the driver always terminates: for every maxIterations ≥ 1 and every
(arbitrary) output stream long enough, it reaches a terminal state after at
most 3 × maxIterations invocations. -/
theorem loop_terminates_bounded (isErr isDone : String → Bool) (M : Nat)
    (outs : List String) (hM : 1 ≤ M) (hlen : 3 * M ≤ outs.length) :
    ∃ c n, ralphRun isErr isDone M initState outs = some (c, n) ∧ n ≤ 3 * M := by
  obtain ⟨c, n, hrun, hn⟩ :=
    run_bounded isErr isDone M outs initState (Nat.zero_le _)
      (show 3 * (M + 1 - 1) - 0 ≤ outs.length by omega)
  have hn₂ : n ≤ 3 * (M + 1 - 1) - 0 := hn
  exact ⟨c, n, hrun, by omega⟩

/-- Witness for C10: a 1-iteration run over an arbitrary 3-output stream
terminates within 3 invocations. -/
theorem loop_terminates_bounded_witness :
    ∃ c n, ralphRun shErr shDone 1 initState ["a", "b", "c"] = some (c, n) ∧
      n ≤ 3 * 1 :=
  loop_terminates_bounded shErr shDone 1 ["a", "b", "c"] (by decide) (by decide)

end Ralph
